import Mathlib

/-!
Verification of the file-handling core of the woltka repository
(`woltka/file.py`): ID/file resolution, mapping-record parsing, read-map
writing, and profile-table building.  Python functions are shallowly
embedded as executable Lean definitions over association lists; file-system
queries (`isfile`) and file contents (lists of lines) are passed in as
explicit parameters, and the external collaborators that are not part of
this file (`util.allkeys`, `util.feat_n_cnt`, `tree.lineage_str`) are
modelled from the specification as noted on their definitions.
-/

namespace Woltka

/-! ### Character and string primitives

Python string operations are modelled on `List Char` so that every
definition evaluates by structural recursion. -/

/-- Characters treated as whitespace by Python's default `str.strip`. -/
def pyWS (c : Char) : Bool :=
  c = ' ' || c = '\t' || c = '\n' || c = '\r' || c = '\x0b' || c = '\x0c'

/-- Python `str.rstrip()`: drop trailing whitespace. -/
def pyRstrip (s : String) : String :=
  String.mk ((s.data.reverse.dropWhile pyWS).reverse)

/-- Python `str.strip()`: drop leading and trailing whitespace. -/
def pyStrip (s : String) : String :=
  String.mk (((s.data.dropWhile pyWS).reverse.dropWhile pyWS).reverse)

/-- Does the string start with the given character (Python `startswith` for
a one-character pattern)? -/
def startsCh (c : Char) (s : String) : Bool :=
  match s.data with
  | [] => false
  | d :: _ => d = c

/-- Split a character list at every occurrence of `sep`; Python
`str.split(sep)` semantics for a one-character separator (no collapsing,
empty pieces kept, empty input gives one empty piece). -/
def splitChars (sep : Char) : List Char → List (List Char)
  | [] => [[]]
  | c :: cs =>
    let r := splitChars sep cs
    if c = sep then [] :: r
    else
      match r with
      | [] => [[c]]
      | h :: t => (c :: h) :: t

/-- Python `str.split(sep)` for a one-character separator. -/
def pySplit (sep : Char) (s : String) : List String :=
  (splitChars sep s.data).map String.mk

/-- Lexicographic strict comparison of character lists by code point;
Python's `<` on strings. -/
def ltChars : List Char → List Char → Bool
  | [], [] => false
  | [], _ :: _ => true
  | _ :: _, [] => false
  | a :: as, b :: bs =>
    if a.toNat < b.toNat then true
    else if b.toNat < a.toNat then false
    else ltChars as bs

/-- Lexicographic comparison of character lists by code point; Python's
`<=` on strings. -/
def leChars : List Char → List Char → Bool
  | [], _ => true
  | _ :: _, [] => false
  | a :: as, b :: bs =>
    if a.toNat < b.toNat then true
    else if b.toNat < a.toNat then false
    else leChars as bs

/-- Python `<=` on strings, as a proposition usable for sorting. -/
def strLe (a b : String) : Prop := leChars a.data b.data = true

instance : DecidableRel strLe := fun a b => by
  unfold strLe; infer_instance

/-- Decimal digit character. -/
def digitCh (n : Nat) : Char := Char.ofNat (48 + n)

/-- Fuel-driven decimal digits of a positive number, most significant
first. -/
def natReprAux : Nat → Nat → List Char
  | 0, _ => []
  | fuel + 1, n => if n = 0 then [] else natReprAux fuel (n / 10) ++ [digitCh (n % 10)]

/-- Decimal rendering of a natural number; Python `str(count)`. -/
def natRepr (n : Nat) : String :=
  if n = 0 then "0" else String.mk (natReprAux (n + 1) n)

/-- Python `os.path.join(fdir, p)` restricted to the two-argument shape
used by `id2file_from_map`. -/
def pyJoin (fdir p : String) : String :=
  if startsCh '/' p then p
  else if fdir = "" then p
  else if fdir.data.getLast? = some '/' then fdir ++ p
  else fdir ++ "/" ++ p

/-! ### `read_ids` (file.py lines 102-132)

The file handle is modelled as `Option (List String)`: `none` is Python's
`None`, `some lines` is an open handle yielding `lines`.  A raised
`ValueError` is an `Except.error` carrying the message. -/

/-- The IDs collected by the loop of `read_ids`: lines starting with `#`
are omitted, the first tab-delimited column of the stripped line is taken,
empty entries are discarded. -/
def collectIds (lines : List String) : List String :=
  lines.filterMap (fun line =>
    if startsCh '#' line then none
    else
      match pySplit '\t' (pyStrip line) with
      | [] => none
      | i :: _ => if i = "" then none else some i)

/-- Embedding of `read_ids`. -/
def read_ids : Option (List String) → Except String (Option (List String))
  | none => Except.ok none
  | some lines =>
    let res := collectIds lines
    if res = [] then Except.error "No ID is read."
    else if res.dedup.length < res.length then Except.error "Duplicate IDs found."
    else Except.ok (some res)

/-! ### `id2file_from_map` (file.py lines 177-245)

The mapping file is modelled by the directory part of its path (`fdir`,
Python `dirname(fp)`), the list of its lines (without trailing newlines,
which `rstrip` would remove anyway), and a file-existence predicate `isf`
standing for `os.path.isfile`.  The Python `return` of `None` is
`Except.ok none`; a raised `ValueError` is `Except.error`. -/

/-- Loop of `id2file_from_map` over the remaining lines, carrying the
pairs resolved so far (Python `res`). -/
def i2fLoop (fdir : String) (isf : String → Bool) :
    List String → List (String × String) → Except String (Option (List (String × String)))
  | [], res => Except.ok (if res = [] then none else some res)
  | line :: rest, res =>
    let l := pyRstrip line
    -- skip empty or commented lines
    if l = "" || startsCh '#' l then i2fLoop fdir isf rest res
    else
      -- a valid map must have exactly two columns per line
      match pySplit '\t' l with
      | [i, f] =>
        -- check full filepath
        if isf f then i2fLoop fdir isf rest (res ++ [(i, f)])
        -- search same directory
        else if isf (pyJoin fdir f) then i2fLoop fdir isf rest (res ++ [(i, pyJoin fdir f)])
        -- if previous lines appear to be valid files, raise error
        else if res ≠ [] then
          Except.error ("Alignment file \"" ++ f ++ "\" does not exist.")
        -- otherwise, return
        else Except.ok none
      | _ => Except.ok none

/-- Embedding of `id2file_from_map`. -/
def id2file_from_map (fdir : String) (isf : String → Bool) (lines : List String) :
    Except String (Option (List (String × String))) :=
  i2fLoop fdir isf lines []

/-! ### `file2stem`, `splitext` and `id2file_from_dir` (file.py 50-174)

`os.path.splitext` is embedded for plain filenames (the only inputs it
receives here are entries of `os.listdir`, which contain no path
separator). -/

/-- Filename extensions recognized as compression suffixes (keys of
`ZIPDIC`). -/
def zipExts : List String := [".gz", ".gzip", ".bz2", ".bzip2", ".xz", ".lz", ".lzma"]

/-- Embedding of `os.path.splitext` for a separator-free filename: split
at the last dot, unless every character before it is itself a dot. -/
def splitext (s : String) : String × String :=
  let cs := s.data
  match (List.range cs.length).filter (fun i => cs.getD i ' ' = '.') |>.getLast? with
  | none => (s, "")
  | some i =>
    if (cs.take i).any (fun c => c ≠ '.') then (String.mk (cs.take i), String.mk (cs.drop i))
    else (s, "")

/-- Embedding of `file2stem`.  With an explicit extension the filename
must end with it (otherwise `ValueError`, modelled as `none`) and the
remaining prefix is the stem (Python `fname[:-len(ext)]`); without one the
last extension is stripped, twice when the outer one is a compression
suffix. -/
def file2stem (fname : String) : Option String → Option String
  | some ext =>
    if ext.data.reverse.isPrefixOf fname.data.reverse then
      some (if ext.length = 0 then "" else String.mk (fname.data.take (fname.length - ext.length)))
    else none
  | none =>
    let (stem, e) := splitext fname
    if e ∈ zipExts then some (splitext stem).1 else some stem

/-- The allow-list test of `id2file_from_dir`: Python
`if ids and id_ not in ids: continue` (an empty or absent list filters
nothing). -/
def idsSkip (ids : Option (List String)) (i : String) : Bool :=
  match ids with
  | some (x :: xs) => !(x :: xs).contains i
  | _ => false

/-- Loop of `id2file_from_dir` over the remaining directory entries,
carrying the ID-to-file pairs resolved so far.  A repeated stem raises
`ValueError` naming the ID. -/
def i2fDirLoop (isf : String → Bool) (ext : Option String) (ids : Option (List String)) :
    List String → List (String × String) → Except String (List (String × String))
  | [], res => Except.ok res
  | fname :: rest, res =>
    if isf fname then
      match file2stem fname ext with
      | none => i2fDirLoop isf ext ids rest res
      | some i =>
        if idsSkip ids i then i2fDirLoop isf ext ids rest res
        else if (res.lookup i).isSome then
          Except.error ("Ambiguous files for ID: \"" ++ i ++ "\".")
        else i2fDirLoop isf ext ids rest (res ++ [(i, fname)])
    else i2fDirLoop isf ext ids rest res

/-- Embedding of `id2file_from_dir`.  The directory is modelled by the
list of its entries in `os.listdir` order together with the predicate
`isf` standing for `os.path.isfile` on them. -/
def id2file_from_dir (entries : List String) (isf : String → Bool) (ext : Option String)
    (ids : Option (List String)) : Except String (List (String × String)) :=
  i2fDirLoop isf ext ids entries []

/-! ### `read_map` (file.py lines 248-313) -/

/-- Modelled from the spec: `util.feat_n_cnt` is not under `src/`.  Per the
spec, a value string may carry a trailing colon-integer count suffix; with
count parsing enabled it becomes a `(value, count)` pair, the count
defaulting to 1 when no suffix is present. -/
def feat_n_cnt (x : String) : String × Nat :=
  let cs := x.data
  match (List.range cs.length).filter (fun i => cs.getD i ' ' = ':') |>.getLast? with
  | none => (x, 1)
  | some i =>
    let suf := cs.drop (i + 1)
    if suf ≠ [] ∧ suf.all Char.isDigit then
      (String.mk (cs.take i), suf.foldl (fun n c => n * 10 + (c.toNat - 48)) 0)
    else (x, 1)

/-- Value part of a pair yielded by `read_map`: a bare second column, a
(value, count) pair, a tuple of all remaining columns, or a tuple of
(value, count) pairs. -/
inductive MVal where
  | one : String → MVal
  | oneC : String × Nat → MVal
  | many : List String → MVal
  | manyC : List (String × Nat) → MVal
deriving DecidableEq, Repr

/-- Embedding of `read_map` over the list of lines of the handle.  `multi`
is Python's three-state flag (`some true` / `some false` / `none`), and the
yielded pairs are collected in generation order. -/
def read_map (sep : Char) (multi : Option Bool) (count : Bool) :
    List String → List (String × MVal)
  | [] => []
  | line :: rest =>
    let row := pySplit sep (pyRstrip line)
    let n := row.length
    if n = 1 then read_map sep multi count rest
    else
      let key := row.headD ""
      match multi with
      -- all values
      | some true =>
        let values := row.drop 1
        (key, if count then MVal.manyC (values.map feat_n_cnt) else MVal.many values)
          :: read_map sep multi count rest
      -- first value only
      | m =>
        if n > 2 ∧ m = none then read_map sep multi count rest
        else
          let value := row.getD 1 ""
          (key, if count then MVal.oneC (feat_n_cnt value) else MVal.one value)
            :: read_map sep multi count rest

/-! ### `write_readmap` (file.py lines 316-341) -/

/-- Target of one read in a read map: a single taxon, or a
taxon-to-count mapping. -/
inductive Target where
  | single : String → Target
  | counts : List (String × Nat) → Target
deriving DecidableEq, Repr

/-- Sort order used by `write_readmap` for taxon-count entries: Python
`sorted` with key `(-count, taxon)`, i.e. count high-to-low, ties by
taxon low-to-high. -/
def rmLe (a b : String × Nat) : Prop :=
  b.2 < a.2 ∨ (a.2 = b.2 ∧ leChars a.1.data b.1.data = true)

instance : DecidableRel rmLe := fun a b => by
  unfold rmLe; infer_instance

/-- Display of one taxon-count entry: the taxon is substituted by its name
when the name dictionary contains it, then joined with the count by a
colon. -/
def rmEntry (namedic : Option (List (String × String))) (p : String × Nat) : String :=
  (((namedic.getD []).lookup p.1).getD p.1) ++ ":" ++ natRepr p.2

/-- Embedding of `write_readmap`: the printed lines, each as the list of
its tab-joined fields.  For a mapping target the entries are sorted by
`rmLe` and then displayed; for a single target the name substitution of
the `elif` branch applies. -/
def write_readmap (namedic : Option (List (String × String))) (rmap : List (String × Target)) :
    List (List String) :=
  rmap.map (fun rt =>
    match rt.2 with
    | Target.counts taxa => rt.1 :: (List.insertionSort rmLe taxa).map (rmEntry namedic)
    | Target.single t => rt.1 :: [((namedic.getD []).lookup t).getD t])

/-! ### Profiles and the table builders (file.py lines 344-522)

A profile is a Python dict from sample ID to a per-sample dict from
feature key to count, embedded as association lists.  Feature keys are a
plain taxon or a (stratum, taxon) tuple.  The lookups `tree`, `rankdic`
and `namedic` are `Option` association lists so that Python `None` and an
empty dict are both representable (they differ in truthiness only for
`None` versus `{}` membership tests, and both are modelled).  The external
collaborator `tree.lineage_str` is not under `src/` and is passed in as an
abstract function argument `ls`. -/

/-- A feature key: plain, or stratified as a (stratum, feature) tuple. -/
inductive FKey where
  | plain : String → FKey
  | strat : String → String → FKey
deriving DecidableEq, Repr

/-- Sparse per-sample count mapping. -/
abbrev SMap := List (FKey × Nat)

/-- Profile: sample ID to sparse count mapping. -/
abbrev Profile := List (String × SMap)

/-- String dictionary (name or rank dictionary, or the taxonomy tree
payload). -/
abbrev SDict := List (String × String)

/-- Truthiness of an optional dictionary argument: Python `None` and `{}`
are falsy. -/
def truthy : Option (List α) → Bool
  | some (_ :: _) => true
  | _ => false

/-- Sort order on feature keys used by `sorted(allkeys(...))`: plain keys
compare as strings, stratified keys as (stratum, feature) tuples.  The
source never compares a plain with a stratified key (Python would raise
`TypeError`); here plain keys sort first. -/
def FKey.le : FKey → FKey → Prop
  | FKey.plain a, FKey.plain b => leChars a.data b.data = true
  | FKey.plain _, FKey.strat _ _ => True
  | FKey.strat _ _, FKey.plain _ => False
  | FKey.strat s a, FKey.strat t b =>
    ltChars s.data t.data = true ∨ (s = t ∧ leChars a.data b.data = true)

instance : DecidableRel FKey.le := fun a b => by
  cases a <;> cases b <;> unfold FKey.le <;> infer_instance

/-- Modelled from the spec: `util.allkeys` is not under `src/`.  Per the
spec, it is the union of the feature keys appearing in any sample of the
profile (a set; embedded as a duplicate-free list in first-appearance
order, which `sorted` then orders). -/
def allkeysList (p : Profile) : List FKey :=
  (p.flatMap (fun s => s.2.map Prod.fst)).dedup

/-- Keys of the profile union in the sorted order both table builders
iterate. -/
def sortedKeys (p : Profile) : List FKey :=
  List.insertionSort FKey.le (allkeysList p)

/-- Active sample determination shared verbatim by `write_table` (lines
379-382) and `prep_table` (lines 487-488): Python
`samples = [x for x in samples if x in data] if samples else sorted(data)`.
A `None` or empty argument is falsy and selects all profile samples in
lexicographic order. -/
def activeSamples (p : Profile) : Option (List String) → List String
  | some (x :: xs) => (x :: xs).filter (fun s => (p.lookup s).isSome)
  | _ => List.insertionSort strLe (p.map Prod.fst)

/-- Split a feature key into Python's `stratum, feature` pair. -/
def splitKey : FKey → Option String × String
  | FKey.plain f => (none, f)
  | FKey.strat s f => (some s, f)

/-- The `name` local of both table builders:
`namedic[feature] if namedic and feature in namedic else None`. -/
def featName (namedic : Option SDict) (taxon : String) : Option String :=
  (namedic.getD []).lookup taxon

/-- Row-header / feature label shared by both builders: the name replaces
the ID only in name-as-id mode when the name is truthy, and a truthy
stratum is prefixed with a pipe. -/
def featLabel (namedic : Option SDict) (nameAsId : Bool) (k : FKey) : String :=
  let st := (splitKey k).1
  let taxon := (splitKey k).2
  let name := featName namedic taxon
  let head :=
    match name with
    | some n => if nameAsId ∧ n ≠ "" then n else taxon
    | none => taxon
  match st with
  | some s => if s ≠ "" then s ++ "|" ++ head else head
  | none => head

/-- The counts pulled for one feature across the active samples
(`prep_table` line 502): the profile entry of the sample, defaulting the
key's count to 0 when absent. -/
def pullCounts (p : Profile) (act : List String) (k : FKey) : List Nat :=
  act.map (fun x => (((p.lookup x).getD []).lookup k).getD 0)

/-- Result of `write_table`: the header fields, the body rows (each the
list of its tab-joined fields), and the returned pair (number of samples,
number of features). -/
structure WTResult where
  header : List String
  rows : List (List String)
  nsamples : Nat
  nfeatures : Nat
deriving DecidableEq, Repr

/-- Embedding of `write_table`.  `ls` stands for `tree.lineage_str`.  Note
the body emits one row for every key of the sorted union: the source has
no all-zero-row skip. -/
def write_table (ls : String → SDict → Option SDict → String) (data : Profile)
    (samples : Option (List String)) (tree rankdic namedic : Option SDict)
    (nameAsId : Bool) : WTResult :=
  let act := activeSamples data samples
  -- table header
  let header := "#FeatureID" :: act
    ++ (if truthy namedic ∧ ¬nameAsId then ["Name"] else [])
    ++ (if truthy rankdic then ["Rank"] else [])
    ++ (if truthy tree then ["Lineage"] else [])
  -- table body
  let rows := (sortedKeys data).map (fun key =>
    let taxon := (splitKey key).2
    let name := featName namedic taxon
    -- row header, then cell values as decimal strings
    featLabel namedic nameAsId key
      :: act.map (fun s =>
          match ((data.lookup s).getD []).lookup key with
          | some c => natRepr c
          | none => "0")
      -- name column
      ++ (if truthy namedic ∧ ¬nameAsId then [name.getD ""] else [])
      -- rank column
      ++ (if truthy rankdic then [((rankdic.getD []).lookup taxon).getD ""] else [])
      -- lineage column
      ++ (match tree with
          | some (t :: ts) => [ls taxon (t :: ts) (if nameAsId then namedic else none)]
          | _ => []))
  ⟨header, rows, act.length, rows.length⟩

/-- A Python value appearing in a `prep_table` metadata record: a string,
or a falsy-but-not-`None` empty dict that slipped through
`filter(None.__ne__, ...)`. -/
inductive PyVal where
  | str : String → PyVal
  | edict : PyVal
deriving DecidableEq, Repr

/-- The `metacols` tuple of `prep_table` (lines 491-493): column names in
fixed order, each kept only when its guard is truthy. -/
def metaCols (tree rankdic namedic : Option SDict) (nameAsId : Bool) : List String :=
  (if truthy namedic ∧ ¬nameAsId then ["Name"] else [])
    ++ (if truthy rankdic then ["Rank"] else [])
    ++ (if truthy tree then ["Lineage"] else [])

/-- The value tuple of one metadata record after `filter(None.__ne__, ...)`
(lines 515-519): `None` entries vanish, but a falsy empty dict survives as
`PyVal.edict`. -/
def metaVals (ls : String → SDict → Option SDict → String)
    (tree rankdic namedic : Option SDict) (nameAsId : Bool) (k : FKey) : List PyVal :=
  let taxon := (splitKey k).2
  let name := featName namedic taxon
  (if truthy namedic ∧ ¬nameAsId then [PyVal.str (name.getD "")] else [])
    ++ (match rankdic with
        | none => []
        | some [] => [PyVal.edict]
        | some d => [PyVal.str ((d.lookup taxon).getD "")])
    ++ (match tree with
        | none => []
        | some [] => [PyVal.edict]
        | some t => [PyVal.str (ls taxon t (if nameAsId then namedic else none))])

/-- The keys whose pulled counts are not all zero, in sorted order: the
rows `prep_table` retains (line 503 drops the others). -/
def retainedKeys (p : Profile) (act : List String) : List FKey :=
  (sortedKeys p).filter (fun k => !(pullCounts p act k).all (· = 0))

/-- Result of `prep_table`: dense data matrix, feature labels, sample
labels, metadata records. -/
structure PTResult where
  data : List (List Nat)
  features : List String
  samples : List String
  metadata : List (List (String × PyVal))
deriving DecidableEq, Repr

/-- Embedding of `prep_table`.  `ls` stands for `tree.lineage_str`.  Each
metadata record is `dict(zip(metacols, filter(None.__ne__, values)))`,
embedded as the truncating zip of the two lists. -/
def prep_table (ls : String → SDict → Option SDict → String) (profile : Profile)
    (samples : Option (List String)) (tree rankdic namedic : Option SDict)
    (nameAsId : Bool) : PTResult :=
  let act := activeSamples profile samples
  let kept := retainedKeys profile act
  { data := kept.map (pullCounts profile act)
    features := kept.map (featLabel namedic nameAsId)
    samples := act
    metadata := kept.map (fun k =>
      (metaCols tree rankdic namedic nameAsId).zip
        (metaVals ls tree rankdic namedic nameAsId k)) }

/-! ### Properties of the `id2file_from_map` loop -/

/-- A line the loop skips: empty after `rstrip`, or a comment. -/
def LineSkipped (l : String) : Prop :=
  pyRstrip l = "" ∨ startsCh '#' (pyRstrip l) = true

instance : DecidablePred LineSkipped := fun l => by
  unfold LineSkipped; infer_instance

/-- A line that resolves to a pair: two tab-separated columns whose path
exists as given or joined with the map file's directory. -/
def LineResolves (fdir : String) (isf : String → Bool) (l : String) : Prop :=
  ∃ a b, pySplit '\t' (pyRstrip l) = [a, b] ∧ (isf b = true ∨ isf (pyJoin fdir b) = true)

/-- The pair a single line contributes to `res`, if any. -/
def linePair (fdir : String) (isf : String → Bool) (l : String) : Option (String × String) :=
  let s := pyRstrip l
  if s = "" || startsCh '#' s then none
  else
    match pySplit '\t' s with
    | [a, b] =>
      if isf b then some (a, b)
      else if isf (pyJoin fdir b) then some (a, pyJoin fdir b)
      else none
    | _ => none

/-! ### Properties of the `id2file_from_dir` loop -/

/-- The sample ID a directory entry contributes, if any: it must be a
regular file, its stem must be extractable, and it must pass the
allow-list. -/
def keptId (isf : String → Bool) (ext : Option String) (ids : Option (List String))
    (fname : String) : Option String :=
  if isf fname then
    match file2stem fname ext with
    | none => none
    | some i => if idsSkip ids i then none else some i
  else none

/-- All IDs the directory entries contribute, in entry order. -/
def keptIds (isf : String → Bool) (ext : Option String) (ids : Option (List String))
    (entries : List String) : List String :=
  entries.filterMap (keptId isf ext ids)

/-! ### Spec-side comparison definition and concrete fixtures -/

/-- Active-sample determination as the spec and claim C5 word it, for
comparison with the code's `activeSamples`: a supplied ordered list is
filtered to the samples present in the profile; only an absent list selects
all profile samples sorted lexicographically. -/
def specActiveSamples (p : Profile) : Option (List String) → List String
  | some l => l.filter (fun s => (p.lookup s).isSome)
  | none => List.insertionSort strLe (p.map Prod.fst)

/-- A lineage-rendering collaborator returning the empty string, for
counterexamples where the lineage column is absent. -/
def lsEmpty : String → SDict → Option SDict → String := fun _ _ _ => ""

/-- A lineage-rendering collaborator returning a fixed marker string. -/
def lsLin : String → SDict → Option SDict → String := fun _ _ _ => "LIN"

/-- A profile with a single sample whose single feature has an explicit
zero count. -/
def zeroProfile : Profile := [("S1", [(FKey.plain "f1", 0)])]

/-- A profile with a single sample and one nonzero count. -/
def oneProfile : Profile := [("S1", [(FKey.plain "f1", 3)])]

/-! ### Order lemmas for the read-map sort -/

theorem leChars_total : ∀ (a b : List Char), leChars a b = true ∨ leChars b a = true := by
  intro a
  induction a with
  | nil => intro b; left; rfl
  | cons x xs ih =>
    intro b
    cases b with
    | nil => right; rfl
    | cons y ys =>
      simp only [leChars]
      rcases Nat.lt_trichotomy x.toNat y.toNat with h | h | h
      · left; simp [h]
      · have h2 : ¬ x.toNat < y.toNat := by omega
        have h3 : ¬ y.toNat < x.toNat := by omega
        rcases ih ys with h4 | h4
        · left; simp [h2, h3, h4]
        · right; simp [h2, h3, h4]
      · right; simp [h]

theorem leChars_trans : ∀ (a b c : List Char),
    leChars a b = true → leChars b c = true → leChars a c = true := by
  intro a
  induction a with
  | nil => intro b c _ _; rfl
  | cons x xs ih =>
    intro b c h1 h2
    cases b with
    | nil => simp [leChars] at h1
    | cons y ys =>
      cases c with
      | nil => simp [leChars] at h2
      | cons z zs =>
        simp only [leChars] at h1 h2 ⊢
        rcases Nat.lt_trichotomy x.toNat y.toNat with hxy | hxy | hxy
        · rcases Nat.lt_trichotomy y.toNat z.toNat with hyz | hyz | hyz
          · simp [show x.toNat < z.toNat by omega]
          · simp [show x.toNat < z.toNat by omega]
          · simp [show ¬ y.toNat < z.toNat by omega, hyz] at h2
        · rw [if_neg (by omega), if_neg (by omega)] at h1
          rcases Nat.lt_trichotomy y.toNat z.toNat with hyz | hyz | hyz
          · simp [show x.toNat < z.toNat by omega]
          · rw [if_neg (by omega), if_neg (by omega)] at h2
            rw [if_neg (by omega), if_neg (by omega)]
            exact ih ys zs h1 h2
          · simp [show ¬ y.toNat < z.toNat by omega, hyz] at h2
        · simp [show ¬ x.toNat < y.toNat by omega, hxy] at h1

instance : IsTotal (String × Nat) rmLe := by
  constructor
  intro a b
  unfold rmLe
  rcases Nat.lt_trichotomy a.2 b.2 with h | h | h
  · right; left; exact h
  · rcases leChars_total a.1.data b.1.data with h2 | h2
    · left; right; exact ⟨h, h2⟩
    · right; right; exact ⟨h.symm, h2⟩
  · left; left; exact h

instance : IsTrans (String × Nat) rmLe := by
  constructor
  intro a b c h1 h2
  unfold rmLe at h1 h2 ⊢
  rcases h1 with h1 | ⟨h1e, h1l⟩
  · rcases h2 with h2 | ⟨h2e, _⟩
    · left; omega
    · left; omega
  · rcases h2 with h2 | ⟨h2e, h2l⟩
    · left; omega
    · right; exact ⟨h1e.trans h2e, leChars_trans _ _ _ h1l h2l⟩

/-! ### Association-list lookup lemma -/

theorem lookup_isSome_iff {α β : Type} [BEq α] [LawfulBEq α] (l : List (α × β)) (a : α) :
    (l.lookup a).isSome = true ↔ a ∈ l.map Prod.fst := by
  induction l with
  | nil => simp [List.lookup]
  | cons p t ih =>
    by_cases h : a = p.1
    · subst h
      simp [List.lookup]
    · have hb : (a == p.1) = false := beq_false_of_ne h
      simp [List.lookup, hb, ih, h]

theorem linePair_of_skipped (fdir : String) (isf : String → Bool) (l : String)
    (h : LineSkipped l) : linePair fdir isf l = none := by
  rcases h with h | h <;> simp [linePair, h]

theorem linePair_of_resolves (fdir : String) (isf : String → Bool) (l : String)
    (hns : ¬ LineSkipped l) (h : LineResolves fdir isf l) :
    ∃ p, linePair fdir isf l = some p := by
  rcases h with ⟨a, b, hsplit, hex⟩
  unfold LineSkipped at hns
  push_neg at hns
  unfold linePair
  simp only [hns.1, hns.2, Bool.or_self, if_neg, decide_False, Bool.false_or,
    Bool.false_eq_true, not_false_iff, hsplit]
  rcases hex with hex | hex
  · exact ⟨(a, b), by simp [hex]⟩
  · by_cases hb : isf b
    · exact ⟨(a, b), by simp [hb]⟩
    · exact ⟨(a, pyJoin fdir b), by simp [hb, hex]⟩

/-- Processing well-behaved (skipped or resolving) lines advances the loop,
appending exactly the pairs those lines contribute. -/
theorem i2fLoop_append (fdir : String) (isf : String → Bool) :
    ∀ (pre : List String), (∀ l ∈ pre, LineSkipped l ∨ LineResolves fdir isf l) →
    ∀ (tl : List String) (res : List (String × String)),
    i2fLoop fdir isf (pre ++ tl) res
      = i2fLoop fdir isf tl (res ++ pre.filterMap (linePair fdir isf)) := by
  intro pre
  induction pre with
  | nil => intro _ tl res; simp
  | cons l t ih =>
    intro h tl res
    have hl := h l (List.mem_cons_self l t)
    rcases hl with hskip | hres
    · rcases hskip with hs | hs
      · simp only [List.cons_append, i2fLoop, hs, List.filterMap_cons,
          linePair_of_skipped fdir isf l (Or.inl hs)]
        simp only [decide_True, Bool.true_or, if_true]
        exact ih (fun x hx => h x (List.mem_cons_of_mem l hx)) tl res
      · simp only [List.cons_append, i2fLoop, hs, List.filterMap_cons,
          linePair_of_skipped fdir isf l (Or.inr hs)]
        rw [if_pos (by simp [hs])]
        exact ih (fun x hx => h x (List.mem_cons_of_mem l hx)) tl res
    · by_cases hskip : LineSkipped l
      · rw [List.cons_append]
        show i2fLoop fdir isf (l :: (t ++ tl)) res = _
        rcases hskip with hs | hs
        · simp only [i2fLoop, hs, List.filterMap_cons,
            linePair_of_skipped fdir isf l (Or.inl hs)]
          simp only [decide_True, Bool.true_or, if_true]
          exact ih (fun x hx => h x (List.mem_cons_of_mem l hx)) tl res
        · simp only [i2fLoop, hs, List.filterMap_cons,
            linePair_of_skipped fdir isf l (Or.inr hs)]
          rw [if_pos (by simp [hs])]
          exact ih (fun x hx => h x (List.mem_cons_of_mem l hx)) tl res
      · rcases hres with ⟨a, b, hsplit, hex⟩
        unfold LineSkipped at hskip
        push_neg at hskip
        rw [List.cons_append]
        show i2fLoop fdir isf (l :: (t ++ tl)) res = _
        simp only [i2fLoop, hsplit, List.filterMap_cons]
        rw [if_neg (by simp [hskip.1, hskip.2])]
        have hlp : linePair fdir isf l
            = if isf b then some (a, b)
              else if isf (pyJoin fdir b) then some (a, pyJoin fdir b) else none := by
          unfold linePair
          rw [if_neg (by simp [hskip.1, hskip.2]), hsplit]
        by_cases hb : isf b
        · simp only [hb, if_true, hlp]
          rw [ih (fun x hx => h x (List.mem_cons_of_mem l hx)) tl (res ++ [(a, b)])]
          simp
        · rcases hex with hex | hex
          · exact absurd hex (by simp [hb])
          · simp only [hb, if_false, hex, if_true, hlp, Bool.false_eq_true]
            rw [ih (fun x hx => h x (List.mem_cons_of_mem l hx)) tl
              (res ++ [(a, pyJoin fdir b)])]
            simp

/-- The directory loop succeeds exactly when the contributed IDs (together
with the accumulator's) are pairwise distinct, and then its result's keys
are the accumulator's followed by the contributed IDs. -/
theorem i2fDirLoop_characterization (isf : String → Bool) (ext : Option String)
    (ids : Option (List String)) :
    ∀ (entries : List String) (res : List (String × String)),
    (res.map Prod.fst).Nodup →
    ((∃ r, i2fDirLoop isf ext ids entries res = Except.ok r
        ∧ r.map Prod.fst = res.map Prod.fst ++ keptIds isf ext ids entries)
      ∧ (res.map Prod.fst ++ keptIds isf ext ids entries).Nodup)
    ∨ ((∃ e, i2fDirLoop isf ext ids entries res = Except.error e)
      ∧ ¬ (res.map Prod.fst ++ keptIds isf ext ids entries).Nodup) := by
  intro entries
  induction entries with
  | nil =>
    intro res hres
    left
    exact ⟨⟨res, rfl, by simp [keptIds]⟩, by simpa [keptIds] using hres⟩
  | cons f t ih =>
    intro res hres
    by_cases hf : isf f
    · rcases hstem : file2stem f ext with _ | i
      · have hk : keptId isf ext ids f = none := by simp [keptId, hf, hstem]
        have : keptIds isf ext ids (f :: t) = keptIds isf ext ids t := by
          simp [keptIds, List.filterMap_cons, hk]
        rw [this]
        simpa only [i2fDirLoop, hf, if_true, hstem] using ih res hres
      · by_cases hskip : idsSkip ids i
        · have hk : keptId isf ext ids f = none := by simp [keptId, hf, hstem, hskip]
          have : keptIds isf ext ids (f :: t) = keptIds isf ext ids t := by
            simp [keptIds, List.filterMap_cons, hk]
          rw [this]
          have := ih res hres
          simpa only [i2fDirLoop, hf, if_true, hstem, hskip] using this
        · have hk : keptId isf ext ids f = some i := by simp [keptId, hf, hstem, hskip]
          have hkk : keptIds isf ext ids (f :: t) = i :: keptIds isf ext ids t := by
            simp [keptIds, List.filterMap_cons, hk]
          rw [hkk]
          by_cases hdup : (res.lookup i).isSome
          · right
            constructor
            · refine ⟨"Ambiguous files for ID: \"" ++ i ++ "\".", ?_⟩
              simp [i2fDirLoop, hf, hstem, hskip, hdup]
            · have hmem : i ∈ res.map Prod.fst := (lookup_isSome_iff res i).mp hdup
              intro hnd
              rcases (List.nodup_append.mp hnd) with ⟨_, _, hdisj⟩
              exact hdisj hmem (List.mem_cons_self i _)
          · have hmem : i ∉ res.map Prod.fst := fun hmem =>
              hdup ((lookup_isSome_iff res i).mpr hmem)
            have hres2 : ((res ++ [(i, f)]).map Prod.fst).Nodup := by
              simp only [List.map_append, List.map_cons, List.map_nil]
              exact List.Nodup.append hres (List.nodup_singleton i)
                (by simpa using hmem)
            have hrec := ih (res ++ [(i, f)]) hres2
            have hloop : i2fDirLoop isf ext ids (f :: t) res
                = i2fDirLoop isf ext ids t (res ++ [(i, f)]) := by
              simp [i2fDirLoop, hf, hstem, hskip, hdup]
            have happ : ∀ (xs : List String),
                (res ++ [(i, f)]).map Prod.fst ++ xs
                  = res.map Prod.fst ++ (i :: xs) := by
              intro xs; simp
            rw [hloop]
            rcases hrec with ⟨⟨r, hr, hkeys⟩, hnd⟩ | ⟨⟨e, he⟩, hnd⟩
            · left
              refine ⟨⟨r, hr, ?_⟩, ?_⟩
              · rw [hkeys, happ]
              · rw [happ] at hnd; exact hnd
            · right
              refine ⟨⟨e, he⟩, ?_⟩
              rw [happ] at hnd; exact hnd
    · have hk : keptId isf ext ids f = none := by simp [keptId, hf]
      have : keptIds isf ext ids (f :: t) = keptIds isf ext ids t := by
        simp [keptIds, List.filterMap_cons, hk]
      rw [this]
      simpa only [i2fDirLoop, hf, if_false, Bool.false_eq_true] using ih res hres

/-! ### Claim theorems -/

/-- Claim C1: the claim (and the spec) say both table-building entry points
drop a feature whose pulled counts are 0 in every active sample.  The code
of `prep_table` does drop it, but `write_table` has no such skip: at the
profile with the single all-zero feature "f1" it emits the row and counts
it in the returned feature count, while `prep_table` omits the feature from
matrix, labels and metadata.  Sample columns are kept by both. -/
theorem write_table_keeps_all_zero_row :
    (write_table lsEmpty zeroProfile none none none none false).rows = [["f1", "0"]]
  ∧ (write_table lsEmpty zeroProfile none none none none false).nfeatures = 1
  ∧ (prep_table lsEmpty zeroProfile none none none none false).data = []
  ∧ (prep_table lsEmpty zeroProfile none none none none false).features = []
  ∧ (prep_table lsEmpty zeroProfile none none none none false).metadata = []
  ∧ (prep_table lsEmpty zeroProfile none none none none false).samples = ["S1"]
  ∧ (write_table lsEmpty zeroProfile none none none none false).nsamples = 1 :=
  ⟨rfl, rfl, rfl, rfl, rfl, rfl, rfl⟩

/-- Claim C3: the claim says the two entry points perform the same
aggregation, the text rows of `write_table` matching `prep_table`'s feature
list in content and order.  At the profile with one all-zero feature the
row headers written by `write_table` list "f1" while `prep_table` returns
no feature at all, so the outputs disagree (the sample columns still
agree). -/
theorem entry_points_disagree_on_zero_rows :
    ((write_table lsEmpty zeroProfile none none none none false).rows.map
        (fun r => r.headD "")) = ["f1"]
  ∧ (prep_table lsEmpty zeroProfile none none none none false).features = []
  ∧ (prep_table lsEmpty zeroProfile none none none none false).samples = ["S1"]
  ∧ (write_table lsEmpty zeroProfile none none none none false).header
      = ["#FeatureID", "S1"] :=
  ⟨rfl, rfl, rfl, rfl⟩

/-- Claim C10: an absent ID-list input (Python `None`) is returned as-is
without raising, while any present input whose collected ID list is empty
raises the "No ID is read." error. -/
theorem read_ids_absent_input_ok :
    read_ids none = Except.ok none
  ∧ ∀ lines : List String, collectIds lines = [] →
      read_ids (some lines) = Except.error "No ID is read." := by
  refine ⟨rfl, ?_⟩
  intro lines h
  simp [read_ids, h]

/-- Witness for `read_ids_absent_input_ok`: a comment-only input parses to
no IDs and raises. -/
theorem read_ids_absent_input_ok_witness :
    read_ids (some ["#only a comment", "\t"]) = Except.error "No ID is read." :=
  read_ids_absent_input_ok.2 ["#only a comment", "\t"] (by decide)

/-- Claim C8: for a feature-to-count target, `write_readmap` writes the
entries sorted by descending count with ties broken by ascending feature
identifier (`rmLe`), the sort key being the pre-substitution identifier,
and name substitution applied only afterwards for display; in particular
counts a:2, b:5, c:5 are written b:5, c:5, a:2, and a name dictionary
reversing the alphabetical order does not change the entry order. -/
theorem write_readmap_sort_order (namedic : Option SDict) (readId : String)
    (taxa : List (String × Nat)) :
    write_readmap namedic [(readId, Target.counts taxa)]
      = [readId :: (List.insertionSort rmLe taxa).map (rmEntry namedic)]
  ∧ (List.insertionSort rmLe taxa).Perm taxa
  ∧ (List.insertionSort rmLe taxa).Pairwise rmLe
  ∧ write_readmap none [("read", Target.counts [("a", 2), ("b", 5), ("c", 5)])]
      = [["read", "b:5", "c:5", "a:2"]]
  ∧ write_readmap (some [("a", "z"), ("b", "y")]) [("r", Target.counts [("a", 5), ("b", 5)])]
      = [["r", "z:5", "y:5"]] :=
  ⟨rfl, List.perm_insertionSort rmLe taxa, List.sorted_insertionSort rmLe taxa, rfl, rfl⟩

/-- Claim C5, counterexample: with a supplied but empty sample list the
claim's description (filter the supplied list, so no active samples) gives
the empty selection, but the code's falsy test makes both builders fall
back to all profile samples sorted. -/
theorem empty_sample_list_falls_back :
    specActiveSamples oneProfile (some []) = []
  ∧ activeSamples oneProfile (some []) = ["S1"]
  ∧ (prep_table lsEmpty oneProfile (some []) none none none false).samples = ["S1"]
  ∧ (write_table lsEmpty oneProfile (some []) none none none false).nsamples = 1 :=
  ⟨rfl, rfl, rfl, rfl⟩

/-- Claim C5 as amended: both builders use the same active-sample
determination — a supplied nonempty list filtered to profile samples in
caller order, and all profile samples sorted lexicographically when the
argument is absent or the empty list — and every active sample is a key of
the profile, so the per-sample lookup in row construction cannot fail. -/
theorem active_sample_determination (ls : String → SDict → Option SDict → String)
    (p : Profile) (sa : Option (List String)) (tree rankdic namedic : Option SDict)
    (nameAsId : Bool) :
    (∀ l, l ≠ [] → sa = some l →
        activeSamples p sa = l.filter (fun s => (p.lookup s).isSome))
  ∧ ((sa = none ∨ sa = some []) →
        activeSamples p sa = List.insertionSort strLe (p.map Prod.fst))
  ∧ (∀ s ∈ activeSamples p sa, (p.lookup s).isSome)
  ∧ (prep_table ls p sa tree rankdic namedic nameAsId).samples = activeSamples p sa
  ∧ (write_table ls p sa tree rankdic namedic nameAsId).nsamples
      = (activeSamples p sa).length := by
  refine ⟨?_, ?_, ?_, rfl, rfl⟩
  · intro l hne hsa
    subst hsa
    cases l with
    | nil => exact absurd rfl hne
    | cons x xs => rfl
  · intro h
    rcases h with h | h <;> subst h <;> rfl
  · intro s hs
    rcases sa with _ | l
    · have hmem : s ∈ p.map Prod.fst :=
        (List.perm_insertionSort strLe (p.map Prod.fst)).mem_iff.mp hs
      exact (lookup_isSome_iff p s).mpr hmem
    · cases l with
      | nil =>
        have hmem : s ∈ p.map Prod.fst :=
          (List.perm_insertionSort strLe (p.map Prod.fst)).mem_iff.mp hs
        exact (lookup_isSome_iff p s).mpr hmem
      | cons x xs =>
        have hs2 : s ∈ (x :: xs).filter (fun t => (p.lookup t).isSome) := hs
        simpa using List.of_mem_filter hs2

/-- Witness for `active_sample_determination`: a supplied nonempty list is
filtered in caller order. -/
theorem active_sample_determination_witness :
    activeSamples oneProfile (some ["S2", "S1"])
      = ["S2", "S1"].filter (fun s => (oneProfile.lookup s).isSome) :=
  (active_sample_determination lsEmpty oneProfile (some ["S2", "S1"])
    none none none false).1 ["S2", "S1"] (by decide) rfl

/-- Claim C6, counterexample: the two entry orders are permutations of one
another with two colliding stems (x and y), yet the raised ambiguity
errors name different offending IDs, so the error is not identical across
permutations. -/
theorem dir_ambiguity_error_depends_on_order :
    id2file_from_dir ["x.tsv", "x.csv", "y.tsv", "y.csv"] (fun _ => true) none none
      = Except.error "Ambiguous files for ID: \"x\"."
  ∧ id2file_from_dir ["y.csv", "y.tsv", "x.csv", "x.tsv"] (fun _ => true) none none
      = Except.error "Ambiguous files for ID: \"y\"."
  ∧ ["y.csv", "y.tsv", "x.csv", "x.tsv"].Perm ["x.tsv", "x.csv", "y.tsv", "y.csv"] :=
  ⟨rfl, rfl, by decide⟩

/-- Claim C6 as amended: directory resolution is order-independent in
whether it succeeds and, on success, in the resulting Sample-ID set; a stem
collision always raises an error instead of being resolved first-wins —
but when more than one ID is ambiguous, the offending ID named by the
error may depend on the entry order. -/
theorem dir_resolution_order_independent (e1 e2 : List String) (isf : String → Bool)
    (ext : Option String) (ids : Option (List String)) (hperm : e1.Perm e2) :
    ((∃ r, id2file_from_dir e1 isf ext ids = Except.ok r)
      ↔ (∃ r, id2file_from_dir e2 isf ext ids = Except.ok r))
  ∧ (∀ r1 r2, id2file_from_dir e1 isf ext ids = Except.ok r1 →
      id2file_from_dir e2 isf ext ids = Except.ok r2 →
      ∀ i, i ∈ r1.map Prod.fst ↔ i ∈ r2.map Prod.fst)
  ∧ (¬ (keptIds isf ext ids e1).Nodup →
      ∃ e, id2file_from_dir e1 isf ext ids = Except.error e) := by
  have hk : (keptIds isf ext ids e1).Perm (keptIds isf ext ids e2) :=
    hperm.filterMap (keptId isf ext ids)
  have h1 := i2fDirLoop_characterization isf ext ids e1 [] (by simp)
  have h2 := i2fDirLoop_characterization isf ext ids e2 [] (by simp)
  simp only [List.map_nil, List.nil_append] at h1 h2
  have hok : ∀ (e : List String),
      (((∃ r, i2fDirLoop isf ext ids e [] = Except.ok r
          ∧ r.map Prod.fst = keptIds isf ext ids e)
        ∧ (keptIds isf ext ids e).Nodup)
      ∨ ((∃ er, i2fDirLoop isf ext ids e [] = Except.error er)
        ∧ ¬ (keptIds isf ext ids e).Nodup)) →
      ((∃ r, id2file_from_dir e isf ext ids = Except.ok r)
        ↔ (keptIds isf ext ids e).Nodup) := by
    intro e h
    constructor
    · intro ⟨r, hr⟩
      rcases h with ⟨_, hnd⟩ | ⟨⟨er, her⟩, _⟩
      · exact hnd
      · rw [id2file_from_dir] at hr
        rw [hr] at her
        exact absurd her (by simp)
    · intro hnd
      rcases h with ⟨⟨r, hr, _⟩, _⟩ | ⟨_, hnnd⟩
      · exact ⟨r, hr⟩
      · exact absurd hnd hnnd
  refine ⟨?_, ?_, ?_⟩
  · rw [hok e1 h1, hok e2 h2]
    exact ⟨fun h => hk.nodup_iff.mp h, fun h => hk.nodup_iff.mpr h⟩
  · intro r1 r2 hr1 hr2 i
    rcases h1 with ⟨⟨s1, hs1, hkey1⟩, _⟩ | ⟨⟨er, her⟩, _⟩
    · rcases h2 with ⟨⟨s2, hs2, hkey2⟩, _⟩ | ⟨⟨er, her⟩, _⟩
      · rw [id2file_from_dir] at hr1 hr2
        rw [hr1] at hs1
        rw [hr2] at hs2
        have e1eq : s1 = r1 := by
          injection hs1 with h; exact h.symm
        have e2eq : s2 = r2 := by
          injection hs2 with h; exact h.symm
        subst e1eq e2eq
        rw [hkey1, hkey2]
        exact hk.mem_iff
      · rw [id2file_from_dir] at hr2
        rw [hr2] at her
        exact absurd her (by simp)
    · rw [id2file_from_dir] at hr1
      rw [hr1] at her
      exact absurd her (by simp)
  · intro hnnd
    rcases h1 with ⟨_, hnd⟩ | ⟨⟨er, her⟩, _⟩
    · exact absurd hnd hnnd
    · exact ⟨er, by rw [id2file_from_dir]; exact her⟩

/-- Witness for `dir_resolution_order_independent`: two collision-free
permutations of the same directory entries resolve the same ID set. -/
theorem dir_resolution_order_independent_witness :
    (∃ r, id2file_from_dir ["a.tsv", "b.tsv"] (fun _ => true) none none = Except.ok r)
      ↔ (∃ r, id2file_from_dir ["b.tsv", "a.tsv"] (fun _ => true) none none = Except.ok r) :=
  (dir_resolution_order_independent ["a.tsv", "b.tsv"] ["b.tsv", "a.tsv"]
    (fun _ => true) none none (by decide)).1

@[simp] theorem truthy_none {α : Type} : truthy (none : Option (List α)) = false := rfl

@[simp] theorem truthy_some_nil {α : Type} : truthy (some ([] : List α)) = false := rfl

@[simp] theorem truthy_some_cons {α : Type} (x : α) (xs : List α) :
    truthy (some (x :: xs)) = true := rfl

/-- When neither the rank dictionary nor the tree is a falsy-but-present
empty dict, the `dict(zip(...))` of `prep_table` pairs each active
metadata column with its own value. -/
theorem metaZip_aligned (ls : String → SDict → Option SDict → String)
    (tree rankdic namedic : Option SDict) (nameAsId : Bool) (k : FKey)
    (hr : rankdic ≠ some []) (ht : tree ≠ some []) :
    (metaCols tree rankdic namedic nameAsId).zip (metaVals ls tree rankdic namedic nameAsId k)
      = (if truthy namedic ∧ ¬nameAsId then
            [("Name", PyVal.str ((featName namedic (splitKey k).2).getD ""))] else [])
        ++ (if truthy rankdic then
            [("Rank", PyVal.str (((rankdic.getD []).lookup (splitKey k).2).getD ""))] else [])
        ++ (if truthy tree then
            [("Lineage", PyVal.str (ls (splitKey k).2 (tree.getD [])
                (if nameAsId then namedic else none)))] else []) := by
  cases htn : truthy namedic
  all_goals cases nameAsId
  all_goals rcases rankdic with _ | d
  all_goals try rcases d with _ | ⟨r0, rr⟩
  all_goals try exact absurd rfl hr
  all_goals rcases tree with _ | t
  all_goals try rcases t with _ | ⟨t0, tt⟩
  all_goals try exact absurd rfl ht
  all_goals simp [metaCols, metaVals, htn, List.zip]

/-- Claim C7, counterexample: with an absent name dictionary, an empty
(falsy, non-absent) rank dictionary and a nonempty tree, the only active
metadata column is Lineage, but the record binds it to the leaked empty
rank dict rather than to the lineage string the collaborator renders. -/
theorem empty_rankdic_misaligns_metadata :
    (prep_table lsLin oneProfile none (some [("t", "t")]) (some []) none false).metadata
      = [[("Lineage", PyVal.edict)]]
  ∧ lsLin "f1" [("t", "t")] none = "LIN" :=
  ⟨rfl, rfl⟩

/-- Claim C7 as amended: metadata columns appear in the fixed order Name,
Rank, Lineage, each present only when its lookup argument is supplied and
nonempty (Name additionally absent in name-as-id mode), and — provided the
rank and tree arguments are each absent or nonempty, ruling out the
empty-dict misalignment — every feature's metadata record has exactly the
active column names as keys, each bound to that column's value for that
feature. -/
theorem prep_metadata_aligned (ls : String → SDict → Option SDict → String)
    (p : Profile) (sa : Option (List String)) (tree rankdic namedic : Option SDict)
    (nameAsId : Bool) (hr : rankdic ≠ some []) (ht : tree ≠ some []) :
    (prep_table ls p sa tree rankdic namedic nameAsId).metadata
      = (retainedKeys p (activeSamples p sa)).map (fun k =>
          (if truthy namedic ∧ ¬nameAsId then
              [("Name", PyVal.str ((featName namedic (splitKey k).2).getD ""))] else [])
          ++ (if truthy rankdic then
              [("Rank", PyVal.str (((rankdic.getD []).lookup (splitKey k).2).getD ""))] else [])
          ++ (if truthy tree then
              [("Lineage", PyVal.str (ls (splitKey k).2 (tree.getD [])
                  (if nameAsId then namedic else none)))] else []))
  ∧ (write_table ls p sa tree rankdic namedic nameAsId).header
      = "#FeatureID" :: activeSamples p sa
        ++ (if truthy namedic ∧ ¬nameAsId then ["Name"] else [])
        ++ (if truthy rankdic then ["Rank"] else [])
        ++ (if truthy tree then ["Lineage"] else []) := by
  constructor
  · show (retainedKeys p (activeSamples p sa)).map (fun k =>
        (metaCols tree rankdic namedic nameAsId).zip
          (metaVals ls tree rankdic namedic nameAsId k)) = _
    exact List.map_congr_left
      (fun k _ => metaZip_aligned ls tree rankdic namedic nameAsId k hr ht)
  · rfl

/-- Witness for `prep_metadata_aligned`: with all three lookups nonempty
the single retained feature's record lists Name, Rank and Lineage in order
with their own values. -/
theorem prep_metadata_aligned_witness :
    (prep_table lsLin oneProfile none (some [("t", "t")]) (some [("f1", "genus")])
        (some [("f1", "F1 name")]) false).metadata
      = [[("Name", PyVal.str "F1 name"), ("Rank", PyVal.str "genus"),
          ("Lineage", PyVal.str "LIN")]] := by
  rw [(prep_metadata_aligned lsLin oneProfile none (some [("t", "t")])
    (some [("f1", "genus")]) (some [("f1", "F1 name")]) false
    (by simp) (by simp)).1]
  rfl

/-- Claim C2, counterexample: the first non-skipped line resolves (its
file exists), committing the format, yet the following malformed
one-column line makes the function return no result instead of raising a
fatal error. -/
theorem malformed_line_after_commit_returns_none :
    id2file_from_map "d" (fun s => s == "f1") ["a\tf1", "oops"] = Except.ok none :=
  rfl

/-- Claim C2 as amended: a non-skipped line that does not split into
exactly two tab-separated columns makes map-file resolution return the
no-result outcome at any position, even after earlier lines committed the
format by resolving; only a missing file on a later line is a fatal
error. -/
theorem malformed_line_returns_none (fdir : String) (isf : String → Bool)
    (pre rest : List String) (l0 : String)
    (hpre : ∀ l ∈ pre, LineSkipped l ∨ LineResolves fdir isf l)
    (hns : ¬ LineSkipped l0)
    (hlen : (pySplit '\t' (pyRstrip l0)).length ≠ 2) :
    id2file_from_map fdir isf (pre ++ l0 :: rest) = Except.ok none := by
  unfold id2file_from_map
  rw [i2fLoop_append fdir isf pre hpre (l0 :: rest) []]
  unfold LineSkipped at hns
  push_neg at hns
  show i2fLoop fdir isf (l0 :: rest) _ = _
  rcases hsp : pySplit '\t' (pyRstrip l0) with _ | ⟨a, _ | ⟨b, _ | ⟨c, t⟩⟩⟩
  · simp [i2fLoop, hns.1, hns.2, hsp]
  · simp [i2fLoop, hns.1, hns.2, hsp]
  · rw [hsp] at hlen; exact absurd rfl hlen
  · simp [i2fLoop, hns.1, hns.2, hsp]

/-- Witness for `malformed_line_returns_none`: a three-column line after a
resolving line yields no result. -/
theorem malformed_line_returns_none_witness :
    id2file_from_map "d" (fun s => s == "f1") ["#c", "a\tf1", "x\ty\tz", "w"]
      = Except.ok none :=
  malformed_line_returns_none "d" (fun s => s == "f1") ["#c", "a\tf1"] ["w"] "x\ty\tz"
    (by
      intro l hl
      simp only [List.mem_cons, List.not_mem_nil, or_false] at hl
      rcases hl with h | h
      · subst h; left; right; decide
      · subst h
        right
        exact ⟨"a", "f1", by decide, Or.inl rfl⟩)
    (by decide)
    (by decide)

/-- Claim C4: per-entry path resolution of `id2file_from_map` tries the
path field as given, then joined with the map file's directory; when
neither exists on the very first non-skipped line the function returns no
result, and when neither exists after a pair has been resolved it raises
an error naming the missing path. -/
theorem map_path_resolution (fdir : String) (isf : String → Bool)
    (pre rest : List String) (l0 a b : String)
    (hpre : ∀ l ∈ pre, LineSkipped l ∨ LineResolves fdir isf l)
    (hsplit : pySplit '\t' (pyRstrip l0) = [a, b])
    (hns : ¬ LineSkipped l0)
    (hb : isf b = false) (hbj : isf (pyJoin fdir b) = false) :
    ((∀ l ∈ pre, LineSkipped l) →
        id2file_from_map fdir isf (pre ++ l0 :: rest) = Except.ok none)
  ∧ ((∃ l ∈ pre, ¬ LineSkipped l) →
        id2file_from_map fdir isf (pre ++ l0 :: rest)
          = Except.error ("Alignment file \"" ++ b ++ "\" does not exist."))
  ∧ (∀ (l1 c d : String), pySplit '\t' (pyRstrip l1) = [c, d] → ¬ LineSkipped l1 →
        isf d = true → id2file_from_map fdir isf [l1] = Except.ok (some [(c, d)]))
  ∧ (∀ (l1 c d : String), pySplit '\t' (pyRstrip l1) = [c, d] → ¬ LineSkipped l1 →
        isf d = false → isf (pyJoin fdir d) = true →
        id2file_from_map fdir isf [l1] = Except.ok (some [(c, pyJoin fdir d)])) := by
  unfold LineSkipped at hns
  push_neg at hns
  refine ⟨?_, ?_, ?_, ?_⟩
  · intro hall
    unfold id2file_from_map
    rw [i2fLoop_append fdir isf pre hpre (l0 :: rest) []]
    have hnil : pre.filterMap (linePair fdir isf) = [] := by
      apply List.filterMap_eq_nil_iff.mpr
      intro l hl
      exact linePair_of_skipped fdir isf l (hall l hl)
    rw [hnil]
    show i2fLoop fdir isf (l0 :: rest) [] = _
    simp [i2fLoop, hns.1, hns.2, hsplit, hb, hbj]
  · intro ⟨l, hl, hlns⟩
    unfold id2file_from_map
    rw [i2fLoop_append fdir isf pre hpre (l0 :: rest) []]
    have hres : LineResolves fdir isf l := by
      rcases hpre l hl with h | h
      · exact absurd h hlns
      · exact h
    obtain ⟨p, hp⟩ := linePair_of_resolves fdir isf l hlns hres
    have hmem : p ∈ pre.filterMap (linePair fdir isf) :=
      List.mem_filterMap.mpr ⟨l, hl, hp⟩
    have hne : pre.filterMap (linePair fdir isf) ≠ [] := by
      intro h; rw [h] at hmem; cases hmem
    show i2fLoop fdir isf (l0 :: rest) _ = _
    simp [i2fLoop, hns.1, hns.2, hsplit, hb, hbj, hne]
  · intro l1 c d hsp hns1 hd
    unfold LineSkipped at hns1
    push_neg at hns1
    unfold id2file_from_map
    simp [i2fLoop, hns1.1, hns1.2, hsp, hd]
  · intro l1 c d hsp hns1 hd hdj
    unfold LineSkipped at hns1
    push_neg at hns1
    unfold id2file_from_map
    simp [i2fLoop, hns1.1, hns1.2, hsp, hd, hdj]

/-- Witness for `map_path_resolution`: with no resolvable earlier line the
missing path yields no result, and a first-line path found through the map
file's directory is resolved to the joined path. -/
theorem map_path_resolution_witness :
    id2file_from_map "d" (fun s => s == "q") ["#c", "x\tnope"] = Except.ok none
  ∧ id2file_from_map "d" (fun s => s == "d/f1") ["a\tf1"]
      = Except.ok (some [("a", "d/f1")]) := by
  constructor
  · exact (map_path_resolution "d" (fun s => s == "q") ["#c"] [] "x\tnope" "x" "nope"
      (by
        intro l hl
        simp only [List.mem_cons, List.not_mem_nil, or_false] at hl
        subst hl
        left; right; decide)
      (by decide) (by decide) (by decide) (by decide)).1
      (by
        intro l hl
        simp only [List.mem_cons, List.not_mem_nil, or_false] at hl
        subst hl
        right; decide)
  · exact (map_path_resolution "d" (fun s => s == "d/f1") [] [] "x\tnope" "x" "nope"
      (by intro l hl; exact absurd hl (List.not_mem_nil l))
      (by decide) (by decide) (by decide) (by decide)).2.2.2
      "a\tf1" "a" "f1" (by decide) (by decide) (by decide) (by decide)

/-- Claim C9: per-mode behavior of `read_map` — a one-column record is
always skipped; in single mode a record with extra columns yields the same
pair as its first two columns alone; in the default ambiguous mode records
with more than two columns are skipped; in multi mode columns two through
last are yielded as an ordered tuple; and pairs are produced in input
order without deduplication (the output over concatenated input is the
concatenation of the outputs). -/
theorem read_map_modes (sep : Char) (cnt : Bool) :
    (∀ (m : Option Bool) (line : String) (rest : List String),
        (pySplit sep (pyRstrip line)).length = 1 →
        read_map sep m cnt (line :: rest) = read_map sep m cnt rest)
  ∧ (∀ (line line2 a b : String) (more : List String),
        pySplit sep (pyRstrip line) = a :: b :: more →
        pySplit sep (pyRstrip line2) = [a, b] →
        read_map sep (some false) cnt [line] = read_map sep (some false) cnt [line2]
        ∧ read_map sep (some false) cnt [line]
            = [(a, if cnt then MVal.oneC (feat_n_cnt b) else MVal.one b)])
  ∧ (∀ (line : String) (rest : List String),
        (pySplit sep (pyRstrip line)).length > 2 →
        read_map sep none cnt (line :: rest) = read_map sep none cnt rest)
  ∧ (∀ (line : String) (rest : List String) (a : String) (vs : List String),
        pySplit sep (pyRstrip line) = a :: vs → vs ≠ [] →
        read_map sep (some true) cnt (line :: rest)
          = (a, if cnt then MVal.manyC (vs.map feat_n_cnt) else MVal.many vs)
            :: read_map sep (some true) cnt rest)
  ∧ (∀ (m : Option Bool) (l1 l2 : List String),
        read_map sep m cnt (l1 ++ l2) = read_map sep m cnt l1 ++ read_map sep m cnt l2) := by
  refine ⟨?_, ?_, ?_, ?_, ?_⟩
  · intro m line rest h
    simp [read_map, h]
  · intro line line2 a b more h1 h2
    have hl1 : (pySplit sep (pyRstrip line)).length = more.length + 2 := by
      rw [h1]; simp
    have hl2 : (pySplit sep (pyRstrip line2)).length = 2 := by
      rw [h2]; rfl
    constructor
    · simp [read_map, h1, h2, hl1, hl2]
    · simp [read_map, h1, hl1]
  · intro line rest h
    simp only [read_map]
    rw [if_neg (by omega)]
    simp [h]
  · intro line rest a vs h hne
    have hl : (pySplit sep (pyRstrip line)).length = vs.length + 1 := by
      rw [h]; simp
    have hvs : vs.length ≠ 0 := fun h0 => hne (List.eq_nil_of_length_eq_zero h0)
    simp only [read_map, hl]
    rw [if_neg (by omega)]
    simp [h]
  · intro m l1 l2
    induction l1 with
    | nil => simp [read_map]
    | cons l t ih =>
      by_cases h1 : (pySplit sep (pyRstrip l)).length = 1
      · simp [read_map, h1, ih]
      · rcases m with _ | b
        · by_cases h2 : (pySplit sep (pyRstrip l)).length > 2
          · simp [read_map, h1, h2, ih]
          · simp [read_map, h1, h2, ih]
        · cases b
          · simp [read_map, h1, ih]
          · simp [read_map, h1, ih]

/-- Witness for `read_map_modes`: a three-column line in single mode
yields the same pair as its two-column truncation. -/
theorem read_map_modes_witness :
    read_map '\t' (some false) false ["k\tv\tw"] = [("k", MVal.one "v")] :=
  ((read_map_modes '\t' false).2.1 "k\tv\tw" "k\tv" "k" "v" ["w"]
    (by decide) (by decide)).2

end Woltka
